import Mathlib

namespace CratesRegistry

/-!
Verification of the crates-registry repository (an offline Cargo registry
mirror and server) against its natural-language specification.

Strings are modelled as lists of characters (`Str`), so that every
operation is computable by the kernel.  Each Rust function that a claim
depends on is translated into a Lean definition, keeping the source's
name where Lean allows it.  Stateful operations (the git index, the
history files) are modelled by explicit state passing; fallible
operations return `Option` or `Except`; a Rust panic is modelled by
`Option` with `none` for the panicking execution.
-/

deriving instance DecidableEq for Except

/-- Strings are modelled as lists of characters. -/
abbrev Str := List Char

/-- Convert a Lean string literal into the model representation. -/
def chars (s : String) : Str := s.data

/-- Rust `str::strip_prefix`: remove `p` from the front of `s`, or fail. -/
def stripPre (s p : Str) : Option Str :=
  if p.isPrefixOf s then some (s.drop p.length) else none

/-- Rust `str::strip_suffix`: remove `p` from the end of `s`, or fail. -/
def stripSuf (s p : Str) : Option Str :=
  if p.isSuffixOf s then some (s.take (s.length - p.length)) else none

/-- Fuel-driven worker for `splitOnStr`; the fuel bounds the length of the
string still to be scanned, so the recursion is structural. -/
def splitGo (sep : Str) : Nat → Str → List Str
  | _, [] => [[]]
  | 0, s => [s]
  | Nat.succ n, c :: rest =>
    if sep ≠ [] ∧ sep.isPrefixOf (c :: rest) then
      [] :: splitGo sep n ((c :: rest).drop sep.length)
    else
      match splitGo sep n rest with
      | [] => [[c]]
      | l :: ls => (c :: l) :: ls

/-- Rust `str::split` / `str::splitn`-style splitting on a non-empty
separator string: every occurrence of `sep` is a boundary.  Mirrors the
behaviour of `split` used in the source (`xz_url.split('/')`) and of
`str::find` + slicing when only the first piece is of interest. -/
def splitOnStr (s sep : Str) : List Str :=
  if sep = [] then [s] else splitGo sep s.length s

/-- Itertools/Vec `join` over a separator, as used by
`ser_entries.join("\n")` and `[3..].join("/")`. -/
def joinStr (sep : Str) : List Str → Str
  | [] => []
  | [x] => x
  | x :: xs => x ++ sep ++ joinStr sep xs

/-- Rust `str::contains` for a substring pattern. -/
def containsSub (s sub : Str) : Bool :=
  sub = [] || (splitOnStr s sub).length > 1

/-- Rust `str::find(pat)` followed by slicing off everything up to and
including the first occurrence of `pat`: returns the remainder of `s`
after the first occurrence of `pat`, or `none` if `pat` does not occur. -/
def afterFirst (s pat : Str) : Option Str :=
  match splitOnStr s pat with
  | [] => none
  | [_] => none
  | _ :: rest => some (joinStr pat rest)

/-- ASCII lowercasing of a crate name (Rust `str::to_lowercase`; crate
names are restricted to alphanumeric, `-` and `_`, so ASCII suffices). -/
def lowercase (s : Str) : Str := s.map Char.toLower

/-! ## The index `config.json` (src/index.rs) -/

/-- An object representing a config.json file inside the index
(src/index.rs `Config`). -/
structure Config where
  dl : Str
  api : Option Str
deriving DecidableEq

/-- The canonical `dl` template for an advertised address, as formatted by
`ensure_config` in src/index.rs. -/
def canonicalDl (addr : Str) : Str :=
  chars "http://" ++ addr ++ chars "/api/v1/crates/{crate}/{version}/download"

/-- The canonical `api` value for an advertised address. -/
def canonicalApi (addr : Str) : Str := chars "http://" ++ addr

/-- The state of the `config.json` file before `ensure_config` runs:
missing, present but unparsable, or present with parsed contents. -/
inductive ConfigFile where
  | absent
  | unparsable
  | present (c : Config)
deriving DecidableEq

/-- The observable state of the index repository: the `config.json` file
and the list of commit messages on HEAD (oldest first). -/
structure IndexState where
  config : ConfigFile
  commits : List Str
deriving DecidableEq

/-- Translation of `Index::ensure_config` (src/index.rs): open
`config.json`; if present, parse it and rewrite + commit when `dl` or
`api` differ from the canonical forms; if missing, create it with the
canonical contents and commit; a file that fails to parse is an error. -/
def ensure_config (st : IndexState) (addr : Str) : Except Str IndexState :=
  match st.config with
  | .present c =>
      let dl := canonicalDl addr
      let api := canonicalApi addr
      if c.dl ≠ dl ∨ c.api ≠ some api then
        .ok { config := .present { dl := dl, api := some api },
              commits := st.commits ++ [chars "Update config.json"] }
      else
        .ok st
  | .absent =>
      .ok { config := .present { dl := canonicalDl addr,
                                 api := some (canonicalApi addr) },
            commits := st.commits ++ [chars "Add initial config.json"] }
  | .unparsable => .error (chars "failed to parse config.json")

/-! ## Registry error bodies and the handler response (src/serve.rs) -/

/-- A single error that the registry returns (src/serve.rs). -/
structure RegistryError where
  detail : Str
deriving DecidableEq

/-- A list of errors that the registry returns in its response. -/
structure RegistryErrors where
  errors : List RegistryError
deriving DecidableEq

/-- Build the registry error list from an error chain (the
`From<Error> for RegistryErrors` impl in src/serve.rs): one entry per
layer of the chain. -/
def registryErrorsOfChain (chain : List Str) : RegistryErrors :=
  { errors := chain.map (fun m => { detail := m }) }

/-- JSON string escaping as performed by serde_json on the characters
that can occur in the error messages modelled here. -/
def jsonEscapeChar (c : Char) : Str :=
  if c = '"' then ['\\', '"']
  else if c = '\\' then ['\\', '\\']
  else if c = '\n' then ['\\', 'n']
  else if c = '\r' then ['\\', 'r']
  else if c = '\t' then ['\\', 't']
  else [c]

/-- Escape a whole string for inclusion in a JSON string literal. -/
def jsonEscape (s : Str) : Str := s.flatMap jsonEscapeChar

/-- serde_json serialization of one `RegistryError`. -/
def registryErrorJson (e : RegistryError) : Str :=
  chars "\x7b\"detail\":\"" ++ jsonEscape e.detail ++ chars "\"\x7d"

/-- serde_json serialization of `RegistryErrors`: the registry-style
error document. -/
def registryErrorsJson (es : RegistryErrors) : Str :=
  chars "\x7b\"errors\":[" ++ joinStr [','] (es.errors.map registryErrorJson)
    ++ chars "]\x7d"

/-- What one warp handler turn produces: either an HTTP reply with a
status code and a body, or a rejection carrying the error chain
(`warp::reject::custom(ServerError(err))` in the source). -/
inductive HandlerOutcome where
  | reply (status : Nat) (body : Str)
  | rejection (chain : List Str)
deriving DecidableEq

/-- Translation of `response` (src/serve.rs): an `Ok` handler result is
returned with status 200; an `Err` is converted into a custom rejection
wrapping the error chain (the branch that produced a 200 JSON error body
is commented out in the source). -/
def response (result : Except (List Str) Str) : HandlerOutcome :=
  match result with
  | .ok inner => .reply 200 inner
  | .error err => .rejection err

/-! ## Crate path sharding and the download redirect (src/serve.rs) -/

/-- Modelled from the spec: `crate_path` is defined in src/publish.rs,
which is not among the provided source files (src/serve.rs only imports
it).  Spec §6 gives the Cargo sharding rule (lowercase the crate name;
by length of the lowercased name: 1 → `1/`; 2 → `2/`; 3 →
`3/<first-char>/`; ≥4 → `<first-two>/<chars-3-4>/`), and the spec's
concrete download examples (`/crates/se/rd/serde-1.0.0.crate`,
`/crates/3/f/foo-0.1.0.crate`) show that the crate file sits directly
inside the shard directory, so `crate_path` is the shard alone. -/
def crate_path (name : Str) : List Str :=
  let lower := lowercase name
  if lower.length = 1 then [chars "1"]
  else if lower.length = 2 then [chars "2"]
  else if lower.length = 3 then [chars "3", lower.take 1]
  else [lower.take 2, (lower.drop 2).take 2]

/-- Modelled from the spec: `crate_file_name` is defined in
src/publish.rs, which is not among the provided source files.  Spec §6:
the crate file name is `<name>-<version>.crate`, original-case name. -/
def crate_file_name (name vers : Str) : Str :=
  name ++ ['-'] ++ vers ++ chars ".crate"

/-- The download handler's redirect Location (src/serve.rs `download`
route): `/crates/` followed by the crate path components joined with
`/`. -/
def download_location (name vers : Str) : Str :=
  chars "/crates/" ++ joinStr ['/'] (crate_path name ++ [crate_file_name name vers])

/-- The reply built by the download route (src/serve.rs:151):
`path.parse::<Uri>().map(warp::redirect).unwrap()`.  warp's `redirect`
replies with status `301 Moved Permanently` (its `redirect::found`
variant would produce 302, and the source does not use it), carrying
the parsed path as the Location.  The pair is (status, Location). -/
def download_redirect (name vers : Str) : Nat × Str :=
  (301, download_location name vers)

/-! ## Channel manifests and platform lists (src/rustup.rs) -/

/-- Download URLs of one channel-manifest target (src/rustup.rs
`TargetUrls`). -/
structure TargetUrls where
  url : Str
  hash : Str
  xz_url : Str
  xz_hash : Str
deriving DecidableEq

/-- One target of a channel-manifest package (src/rustup.rs `Target`).
The flattened URL fields are absent for unavailable targets. -/
structure Target where
  available : Bool
  target_urls : Option TargetUrls
deriving DecidableEq

/-- One package of a channel manifest (src/rustup.rs `Pkg`).  The
`target` HashMap is modelled as an association list. -/
structure Pkg where
  version : Str
  target : List (Str × Target)
deriving DecidableEq

/-- A parsed channel manifest (src/rustup.rs `Channel`). -/
structure Channel where
  manifest_version : Str
  date : Str
  pkg : List (Str × Pkg)
deriving DecidableEq

/-- The unix/windows platform buckets (src/rustup.rs `Platforms`). -/
structure Platforms where
  unix : List Str
  windows : List Str
deriving DecidableEq

/-- Translation of `Platforms::contains` (src/rustup.rs). -/
def Platforms.contains (ps : Platforms) (p : Str) : Bool :=
  ps.unix.contains p || ps.windows.contains p

/-- Translation of `Platforms::len` (src/rustup.rs). -/
def Platforms.len (ps : Platforms) : Nat := ps.unix.length + ps.windows.length

/-- The fixed list of windows platforms (src/rustup.rs
`PLATFORMS_WINDOWS`). -/
def PLATFORMS_WINDOWS : List Str :=
  [chars "i586-pc-windows-msvc", chars "i686-pc-windows-gnu",
   chars "i686-pc-windows-msvc", chars "x86_64-pc-windows-gnu",
   chars "x86_64-pc-windows-msvc"]

/-- Rust iterator `collect::<Result<Vec<_>, _>>` over fallible items:
stop at the first failure, otherwise keep all results in order. -/
def collectOption {α β : Type} (f : α → Option β) : List α → Option (List β)
  | [] => some []
  | a :: as =>
    match f a, collectOption f as with
    | some b, some bs => some (b :: bs)
    | _, _ => none

/-- Rust `Vec` slicing `v[n..]`: defined when `n ≤ v.len()`, a panic
otherwise (modelled as `none`). -/
def sliceFrom (l : List Str) (n : Nat) : Option (List Str) :=
  if n ≤ l.length then some (l.drop n) else none

/-- The relative path computed inside `rustup_download_list`
(src/rustup.rs): `xz_url.split('/').collect::<Vec<_>>()[3..].join("/")`. -/
def xz_relative_path (xz_url : Str) : Option Str :=
  (sliceFrom (splitOnStr xz_url ['/']) 3).map (joinStr ['/'])

/-- The `(relative_path, xz_hash)` pairs contributed by one package in
`rustup_download_list` (src/rustup.rs): keep targets whose triple is
selected or is the literal `*`, keep those with URLs, pair the sliced
`xz_url` with `xz_hash`. -/
def target_download_pairs (platforms : Platforms) (pkg : Pkg) :
    Option (List (Str × Str)) :=
  collectOption
    (fun urls => (xz_relative_path urls.xz_url).map (fun r => (r, urls.xz_hash)))
    ((pkg.target.filter
        (fun t => platforms.contains t.1 || t.1 == chars "*")).filterMap
      (fun t => t.2.target_urls))

/-- Translation of `rustup_download_list` (src/rustup.rs): the manifest
date together with all download pairs of all packages except
`rustc-dev`. -/
def rustup_download_list (c : Channel) (platforms : Platforms) :
    Option (Str × List (Str × Str)) :=
  (collectOption (fun p => target_download_pairs platforms p.2)
      (c.pkg.filter (fun p => p.1 != chars "rustc-dev"))).map
    (fun ls => (c.date, ls.flatten))

/-- Concrete channel manifest used as the C3 witness input. -/
def channelW : Channel :=
  { manifest_version := chars "2"
    date := chars "2024-01-15"
    pkg := [(chars "rust",
      { version := chars "1.75.0"
        target := [(chars "x86_64-unknown-linux-gnu",
          { available := true
            target_urls := some
              { url := chars "https://static.rust-lang.org/dist/2024-01-15/rust-1.75.0-x86_64-unknown-linux-gnu.tar.gz"
                hash := chars "aa"
                xz_url := chars "https://static.rust-lang.org/dist/2024-01-15/rust-1.75.0-x86_64-unknown-linux-gnu.tar.xz"
                xz_hash := chars "bb" } })] })] }

/-- Concrete platform selection used as the C3 witness input. -/
def platformsW : Platforms :=
  { unix := [chars "x86_64-unknown-linux-gnu"], windows := [] }

/-- Translation of the platform enumeration in `download_platform_list`
(src/rustup.rs): collect all target triples of the manifest except the
synthetic `*` into a set, sort it, and build a unix bucket (the sorted
triples that are not in the fixed windows list) and the windows bucket,
which is always the fixed list `PLATFORMS_WINDOWS`. -/
def download_platform_list (c : Channel) : Platforms :=
  let targets :=
    ((c.pkg.flatMap (fun p => p.2.target.map Prod.fst)).filter
      (fun t => t != chars "*")).dedup
  let sorted := List.insertionSort (fun a b : Str => a ≤ b) targets
  { unix := sorted.filter (fun x => !PLATFORMS_WINDOWS.contains x)
    windows := PLATFORMS_WINDOWS }

/-- The `try_fold` loop of `get_platforms` (src/rustup.rs): classify each
requested platform into the windows bucket (checked first) or the unix
bucket of the upstream list; an unknown triple aborts with a
configuration error. -/
def get_platforms_fold (all : Platforms) (acc : Platforms) :
    List Str → Except Str Platforms
  | [] => .ok acc
  | p :: rest =>
    if all.windows.contains p then
      get_platforms_fold all { acc with windows := acc.windows ++ [p] } rest
    else if all.unix.contains p then
      get_platforms_fold all { acc with unix := acc.unix ++ [p] } rest
    else .error (chars "Wrong platform: " ++ p)

/-- Translation of `get_platforms` (src/rustup.rs): an empty request
resolves to the full upstream list, otherwise the requested platforms
are classified by `get_platforms_fold`. -/
def get_platforms (requested : List Str) (all : Platforms) :
    Except Str Platforms :=
  if requested.isEmpty then .ok all
  else get_platforms_fold all { unix := [], windows := [] } requested

/-- Concrete manifest whose only target triple is `aaa`, used for the C5
counterexample. -/
def channelCW : Channel :=
  { manifest_version := chars "2"
    date := chars "d"
    pkg := [(chars "rust",
      { version := chars "v"
        target := [(chars "aaa",
          { available := true, target_urls := none })] })] }

/-! ## Channel sync result handling and history files (src/rustup.rs) -/

/-- Download failures (src/download.rs `DownloadError`), abstracted to
the distinction the sync loops make: `NotFound` versus anything else. -/
inductive DownloadError where
  | notFound
  | other
deriving DecidableEq

/-- Sync errors (src/rustup.rs `SyncError`), abstracted to the variants
the claims distinguish. -/
inductive SyncError where
  | io
  | toml
  | download (e : DownloadError)
  | failedDownloads (count : Nat)
deriving DecidableEq

/-- A per-channel history file (src/rustup.rs `ChannelHistoryFile`); the
`versions` HashMap is modelled as an association list. -/
structure ChannelHistoryFile where
  versions : List (Str × List Str)
deriving DecidableEq

/-- Rust `HashMap::insert` on the versions table: replace any binding of
`date` by the new one. -/
def insertVersion (versions : List (Str × List Str)) (date : Str)
    (files : List Str) : List (Str × List Str) :=
  (versions.filter (fun kv => kv.1 != date)) ++ [(date, files)]

/-- The outcome of `get_channel_history` (src/rustup.rs): reading the
pre-existing `mirror-<channel>-history.toml` can fail with an IO error
(the file is missing or unreadable — `add_to_channel_history` then
starts from an empty table), fail with a TOML parse error on a
malformed file (which `add_to_channel_history` propagates), or succeed
with the parsed file. -/
inductive HistoryReadResult where
  | ioError
  | parseError
  | ok (f : ChannelHistoryFile)
deriving DecidableEq

/-- Translation of `add_to_channel_history` (src/rustup.rs): read the
existing history file (an IO failure starts an empty table, a malformed
file propagates its parse error), bind the manifest date to the
downloaded relative paths followed by the extra retention files, and
write the file back — serializing and writing can itself fail
(modelled by `writeOk`), in which case the error propagates.  On
success the written file is returned. -/
def add_to_channel_history (read : HistoryReadResult) (writeOk : Bool)
    (date : Str) (files : List (Str × Str)) (extra_files : List Str) :
    Except SyncError ChannelHistoryFile :=
  match (match read with
         | .parseError => Except.error SyncError.toml
         | .ioError => Except.ok ({ versions := [] } : ChannelHistoryFile)
         | .ok ch => Except.ok ch) with
  | .error e => .error e
  | .ok ch =>
    let written : ChannelHistoryFile :=
      { versions := insertVersion ch.versions date
          (files.map Prod.fst ++ extra_files) }
    if writeOk then .ok written else .error .io

/-- The error-counting loop of `sync_rustup_channel` (src/rustup.rs):
walk every collected task result; `NotFound` is ignored, any other
failure increments the counter. -/
def count_download_errors (results : List (Except DownloadError Unit)) : Nat :=
  results.foldl
    (fun acc r =>
      match r with
      | .ok _ => acc
      | .error .notFound => acc
      | .error .other => acc + 1)
    0

/-- The tail of `sync_rustup_channel` (src/rustup.rs) after all download
tasks have completed: if no non-`NotFound` failure was counted, run
`add_to_channel_history(..)?` — whose own failure propagates and leaves
no file written — then succeed; otherwise fail with `FailedDownloads`
and write nothing.  The first component is the function's result, the
second the history file written (if any). -/
def sync_channel_finish (read : HistoryReadResult) (writeOk : Bool)
    (date : Str) (files : List (Str × Str)) (extra_files : List Str)
    (results : List (Except DownloadError Unit)) :
    Except SyncError Unit × Option ChannelHistoryFile :=
  let errors_occurred := count_download_errors results
  if errors_occurred = 0 then
    match add_to_channel_history read writeOk date files extra_files with
    | .error e => (.error e, none)
    | .ok written => (.ok (), some written)
  else
    (.error (.failedDownloads errors_occurred), none)

/-! ## The pack pipeline (src/pack.rs, src/rustup.rs) -/

/-- The loop over explicitly pinned rust versions in
`download_pinned_rust_version` (src/rustup.rs): a channel sync that
fails with `Download(NotFound)` — the channel manifest was not found —
aborts with an error; any other failure is only logged and the loop
continues. -/
def pinned_versions_loop (chR : Str → Except SyncError Unit) :
    List Str → Except Str Unit
  | [] => .ok ()
  | v :: rest =>
    match chR v with
    | .error (.download .notFound) =>
      .error (chars "Pinned rust version " ++ v ++ chars " could not be found")
    | _ => pinned_versions_loop chR rest

/-- Translation of `download_pinned_rust_version` (src/rustup.rs) over
abstract sync outcomes: a platform-resolution failure propagates (the
`get_platforms(..)?` call); a failure of `sync_rustup_init` is only
logged; then each pinned version's channel sync result is processed in
order. -/
def download_pinned_rust_version (gp : Except Str Platforms)
    (_initR : Except SyncError Unit) (chR : Str → Except SyncError Unit)
    (versions : List Str) : Except Str Unit :=
  match gp with
  | .error e => .error e
  | .ok _ => pinned_versions_loop chR versions

/-- Translation of `download_latest` (src/rustup.rs) over abstract sync
outcomes: a platform-resolution failure propagates; failures of
`sync_rustup_init` and of the stable and nightly channel syncs are only
logged. -/
def download_latest (gp : Except Str Platforms)
    (_initR _stableR _nightlyR : Except SyncError Unit) : Except Str Unit :=
  match gp with
  | .error e => .error e
  | .ok _ => .ok ()

/-- Translation of `pack` (src/pack.rs) over abstract download
outcomes: mirror pinned versions when some were requested, the latest
stable and nightly otherwise; on success emit the tar archive (the
boolean result). -/
def pack (gp : Except Str Platforms) (initR : Except SyncError Unit)
    (chR : Str → Except SyncError Unit)
    (stableR nightlyR : Except SyncError Unit) (versions : List Str) :
    Except Str Bool :=
  match (if versions.isEmpty then download_latest gp initR stableR nightlyR
         else download_pinned_rust_version gp initR chR versions) with
  | .error e => .error e
  | .ok _ => .ok true

/-! ## The git CGI bridge response construction (src/index.rs) -/

/-- Rust `str::split_once`: split at the first occurrence of `sep` into
the parts before and after it. -/
def splitOnce (s sep : Str) : Option (Str × Str) :=
  match splitOnStr s sep with
  | [] => none
  | [_] => none
  | a :: rest => some (a, joinStr sep rest)

/-- The header-collection loop of `handle_git` (src/index.rs): each
`Key: Value` line (up to the blank line) becomes a header; lines
without `": "` are skipped. -/
def collect_headers (lines : List Str) : List (Str × Str) :=
  lines.filterMap (fun l => splitOnce l (chars ": "))

/-- UTF-8 encoding of one character, as a list of byte values. -/
def encodeChar (c : Char) : List Nat :=
  let n := c.toNat
  if n < 0x80 then [n]
  else if n < 0x800 then
    [0xC0 ||| (n >>> 6), 0x80 ||| (n &&& 0x3F)]
  else if n < 0x10000 then
    [0xE0 ||| (n >>> 12), 0x80 ||| ((n >>> 6) &&& 0x3F), 0x80 ||| (n &&& 0x3F)]
  else
    [0xF0 ||| (n >>> 18), 0x80 ||| ((n >>> 12) &&& 0x3F),
     0x80 ||| ((n >>> 6) &&& 0x3F), 0x80 ||| (n &&& 0x3F)]

/-- Rust `str::as_bytes`: the UTF-8 bytes of a string. -/
def utf8Bytes (s : Str) : List Nat := s.flatMap encodeChar

/-- Rust byte slicing `&bytes[..3]`: the first three bytes, or a panic
(`none`) when fewer than three bytes exist. -/
def slice_first3 (bytes : List Nat) : Option (List Nat) :=
  if 3 ≤ bytes.length then some (bytes.take 3) else none

/-- The response under construction in `handle_git` (src/index.rs): the
status set from the `Status` header (as its first three bytes) and the
remaining headers. -/
structure GitResponse where
  status : Option (List Nat)
  headers : List (Str × Str)
deriving DecidableEq

/-- The header loop of the response builder in `handle_git`
(src/index.rs): a `Status` header contributes its first three bytes as
the status code — a slice that panics when the value is shorter than
three bytes — and every other header is added to the response. -/
def build_git_response_fold (acc : GitResponse) :
    List (Str × Str) → Option GitResponse
  | [] => some acc
  | (k, v) :: rest =>
    if k == chars "Status" then
      match slice_first3 (utf8Bytes v) with
      | none => none
      | some b => build_git_response_fold { acc with status := some b } rest
    else
      build_git_response_fold { acc with headers := acc.headers ++ [(k, v)] } rest

/-- Build the HTTP response from the collected CGI headers
(src/index.rs `handle_git`). -/
def build_git_response (hs : List (Str × Str)) : Option GitResponse :=
  build_git_response_fold { status := none, headers := [] } hs

/-! ## The versions API (src/serve_frontend.rs) -/

/-- A parsed history TOML file as `available_versions` sees it
(src/serve_frontend.rs): the optional `versions` table maps date keys to
TOML values; a value is either an array (whose items may or may not be
strings, non-strings modelled as `none`) or not an array (`none`,
treated as the empty array by `unwrap_or_default`). -/
structure HistoryTable where
  versions : Option (List (Str × Option (List (Option Str))))
deriving DecidableEq

/-- Translation of `extract_available_platforms_for_channel`
(src/serve_frontend.rs): flatten all array items of the `versions`
table, keep the string items, take the remainder after the first
occurrence of `cargo-<version_name>-`, and strip a trailing `tar.xz`. -/
def extract_available_platforms_for_channel (config : HistoryTable)
    (version_name : Str) : Option (List Str) :=
  match config.versions with
  | none => none
  | some table =>
    some ((table.flatMap (fun kv => kv.2.getD [])).filterMap
      (fun p =>
        match p with
        | none => none
        | some s =>
          match afterFirst s (chars "cargo-" ++ version_name ++ ['-']) with
          | none => none
          | some tail => stripSuf tail (chars "tar.xz")))

/-- Translation of the per-file body of `available_versions`
(src/serve_frontend.rs): a file whose name contains `nightly` is treated
as a nightly history file (base channel `nightly`, the date taken by
stripping `mirror-nightly-` and `-history.toml`); any other file's
channel is its name stripped of `mirror-` and `-history.toml`; failures
of those strips, or a missing `versions` table, abort with an error. -/
def version_entry_for_file (file_name : Str) (conf : HistoryTable) :
    Except Str (Str × List Str) :=
  let is_nightly := containsSub file_name (chars "nightly")
  match (if is_nightly then Except.ok (chars "nightly")
         else
           match stripPre file_name (chars "mirror-") with
           | none => Except.error (chars "strip_prefix NoneError")
           | some s =>
             match stripSuf s (chars "-history.toml") with
             | none => Except.error (chars "strip_suffix NoneError")
             | some v => Except.ok v) with
  | .error e => .error e
  | .ok version_name =>
    match extract_available_platforms_for_channel conf version_name with
    | none => .error (chars "None Error channel config")
    | some platforms =>
      if is_nightly then
        match stripPre file_name (chars "mirror-nightly-") with
        | none => .error (chars "strip_prefix NoneError")
        | some s =>
          match stripSuf s (chars "-history.toml") with
          | none => .error (chars "strip_suffix NoneError")
          | some date => .ok (chars "nightly-" ++ date, platforms)
      else .ok (version_name, platforms)

/-- Rust iterator `collect::<Result<_, E>>`: stop at the first error. -/
def collectExcept {ε α β : Type} (f : α → Except ε β) :
    List α → Except ε (List β)
  | [] => .ok []
  | a :: as =>
    match f a with
    | .error e => .error e
    | .ok b =>
      match collectExcept f as with
      | .error e => .error e
      | .ok bs => .ok (b :: bs)

/-- Translation of `available_versions` (src/serve_frontend.rs) over
the already-globbed and parsed `*.toml` files: one `(channel id,
platforms)` entry per file, failing on the first bad file. -/
def available_versions (files : List (Str × HistoryTable)) :
    Except Str (List (Str × List Str)) :=
  collectExcept (fun f => version_entry_for_file f.1 f.2) files

/-! ## The index entry codec (src/index.rs) -/

/-- A dependency record of an index entry (src/index.rs `Dep`). -/
structure Dep where
  name : Str
  req : Str
  features : List Str
  optional : Bool
  default_features : Bool
  target : Option Str
  kind : Option Str
  registry : Option Str
  package : Option Str
deriving DecidableEq

/-- An index entry record (src/index.rs `Entry`); the features BTreeMap
is modelled as an association list. -/
structure Entry where
  name : Str
  vers : Str
  deps : List Dep
  cksum : Str
  features : List (Str × List Str)
  yanked : Bool
  links : Option Str
deriving DecidableEq

/-- Rust `str::split_inclusive('\n')`: the pieces of the string ending
at (and keeping) each newline; an empty string has no pieces and a
trailing newline produces no empty final piece. -/
def splitInclusiveNl : Str → List Str
  | [] => []
  | c :: rest =>
    if c = '\n' then ['\n'] :: splitInclusiveNl rest
    else
      match splitInclusiveNl rest with
      | [] => [[c]]
      | l :: ls => (c :: l) :: ls

/-- The per-line cleanup of Rust `str::lines`: remove a trailing
newline, and a carriage return before it, from a piece. -/
def lineStrip (l : Str) : Str :=
  match stripSuf l ['\n'] with
  | none => l
  | some l' =>
    match stripSuf l' ['\r'] with
    | none => l'
    | some l'' => l''

/-- Rust `str::lines`, used by the `TryFrom<String> for Entries` decoder
(src/index.rs). -/
def rustLines (s : Str) : List Str := (splitInclusiveNl s).map lineStrip

/-- Translation of `TryFrom<String> for Entries` (src/index.rs): parse
every line of the file through the line parser (serde_json's `from_str`,
abstracted as `parse`) and collect the records into a set; any failing
line fails the whole decode. -/
def entries_from_string {α : Type} [DecidableEq α] (parse : Str → Option α)
    (s : Str) : Option (Finset α) :=
  (collectOption parse (rustLines s)).map List.toFinset

/-- Translation of `TryInto<String> for Entries` (src/index.rs): print
every record of the set's iteration sequence (serde_json's `to_string`,
abstracted as `print`) and join the lines with `"\n"`. -/
def entries_to_string {α : Type} (print : α → Str) (l : List α) : Str :=
  joinStr ['\n'] (l.map print)

/-- Inserting into the entry set (the `SmolSet` insert used through
`DerefMut` in src/index.rs): set semantics keyed by the full record
value. -/
def entries_insert {α : Type} [DecidableEq α] (e : α) (s : Finset α) :
    Finset α :=
  insert e s

/-- A line printer for the C8 witness instantiation. -/
def boolPrint (b : Bool) : Str := if b then chars "true" else chars "false"

/-- A line parser for the C8 witness instantiation. -/
def boolParse (s : Str) : Option Bool :=
  if s = chars "true" then some true
  else if s = chars "false" then some false
  else none

/-! ## Theorems -/

/-- C1 counterexample: a handler that fails with a one-layer error chain
is turned into a warp rejection, not into an HTTP 200 reply whose body is
the registry-style JSON error document. -/
theorem response_counterexample :
    response (.error [chars "failed to publish"]) ≠
      .reply 200 (registryErrorsJson
        (registryErrorsOfChain [chars "failed to publish"])) := by
  decide

/-- C1 (amended): `response` maps a successful handler result to an HTTP
200 reply with that body, and maps any handler error to a custom warp
rejection carrying the error chain; no JSON error body is built by the
handler.  The registry-style JSON encoding of an error chain itself
matches the source's unit test (`registry_error_encoding`). -/
theorem response_spec (b : Str) (err : List Str) :
    response (.ok b) = .reply 200 b ∧
    response (.error err) = .rejection err ∧
    registryErrorsJson (registryErrorsOfChain [chars "error message text"]) =
      chars "\x7b\"errors\":[\x7b\"detail\":\"error message text\"\x7d]\x7d" :=
  ⟨rfl, rfl, by decide⟩

/-- C2: for every advertised address: if `config.json` is absent,
`ensure_config` creates it with the canonical `dl` and `api` forms and
adds one commit; if it is present but `dl` or `api` differs from the
canonical forms, it rewrites the file to exactly the canonical contents
and adds exactly one new commit; if it is present and already matches,
the file and the commit history are left unchanged. -/
theorem ensure_config_spec (st : IndexState) (addr : Str) :
    (st.config = .absent →
      ensure_config st addr =
        .ok { config := .present { dl := canonicalDl addr,
                                   api := some (canonicalApi addr) },
              commits := st.commits ++ [chars "Add initial config.json"] } ∧
      (st.commits ++ [chars "Add initial config.json"]).length
        = st.commits.length + 1) ∧
    (∀ c, st.config = .present c →
      c.dl ≠ canonicalDl addr ∨ c.api ≠ some (canonicalApi addr) →
      ensure_config st addr =
        .ok { config := .present { dl := canonicalDl addr,
                                   api := some (canonicalApi addr) },
              commits := st.commits ++ [chars "Update config.json"] } ∧
      (st.commits ++ [chars "Update config.json"]).length
        = st.commits.length + 1) ∧
    (∀ c, st.config = .present c →
      c.dl = canonicalDl addr → c.api = some (canonicalApi addr) →
      ensure_config st addr = .ok st) := by
  refine ⟨fun h => ⟨?_, by simp⟩, fun c hc hne => ⟨?_, by simp⟩,
    fun c hc h1 h2 => ?_⟩
  · simp [ensure_config, h]
  · simp only [ensure_config, hc]
    rw [if_pos hne]
  · simp only [ensure_config, hc]
    rw [if_neg (not_or.mpr ⟨not_not_intro h1, not_not_intro h2⟩)]

/-- C2 witness: a pre-existing `config.json` whose `dl` is `"foobar"` is
rewritten to the canonical contents for address `254.0.0.0:1`, with
exactly one new commit. -/
theorem ensure_config_witness :
    ensure_config { config := .present { dl := chars "foobar", api := none },
                    commits := [chars "c0"] } (chars "254.0.0.0:1") =
      .ok { config := .present { dl := canonicalDl (chars "254.0.0.0:1"),
                                 api := some (canonicalApi (chars "254.0.0.0:1")) },
            commits := [chars "c0", chars "Update config.json"] } :=
  ((ensure_config_spec
      { config := .present { dl := chars "foobar", api := none },
        commits := [chars "c0"] } (chars "254.0.0.0:1")).2.1
    { dl := chars "foobar", api := none } rfl (Or.inl (by decide))).1

/-- C7 counterexample: the download route replies with warp's
`redirect`, which is `301 Moved Permanently`, not the claimed 302; and
the crate file sits directly inside the shard directory, so
`serde/1.0.0` does not redirect to the path
`/crates/se/rd/serde/serde-1.0.0.crate` that the claimed template
`/crates/<shard>/<name>/<name>-<version>.crate` prescribes; it redirects
to `/crates/se/rd/serde-1.0.0.crate`, the claim's own example. -/
theorem download_location_counterexample :
    (download_redirect (chars "serde") (chars "1.0.0")).1 ≠ 302 ∧
    (download_redirect (chars "serde") (chars "1.0.0")).1 = 301 ∧
    download_location (chars "serde") (chars "1.0.0") ≠
      chars "/crates/se/rd/serde/serde-1.0.0.crate" ∧
    download_location (chars "serde") (chars "1.0.0") =
      chars "/crates/se/rd/serde-1.0.0.crate" := by
  refine ⟨by decide, rfl, by decide, by decide⟩

/-- C7 (amended): the download route replies with a 301 Moved
Permanently redirect (warp's `redirect`; 302 would be its
`redirect::found`, which the source does not use) whose Location is
`/crates/<shard>/<name>-<version>.crate` (no separate `<name>`
directory), where the shard of the lowercased name is `1`, `2`,
`3/<first-char>` or `<first-two>/<chars-3-4>` according to the name's
length, the file name uses the original-case name, and in particular
`serde/1.0.0` redirects to `/crates/se/rd/serde-1.0.0.crate`. -/
theorem download_location_spec (name vers : Str) :
    (download_redirect name vers).1 = 301 ∧
    (download_redirect name vers).2 = download_location name vers ∧
    (name.length = 1 →
      download_location name vers =
        chars "/crates/" ++ chars "1" ++ ['/'] ++ crate_file_name name vers) ∧
    (name.length = 2 →
      download_location name vers =
        chars "/crates/" ++ chars "2" ++ ['/'] ++ crate_file_name name vers) ∧
    (name.length = 3 →
      download_location name vers =
        chars "/crates/" ++ chars "3" ++ ['/'] ++ (lowercase name).take 1
          ++ ['/'] ++ crate_file_name name vers) ∧
    (4 ≤ name.length →
      download_location name vers =
        chars "/crates/" ++ (lowercase name).take 2 ++ ['/']
          ++ ((lowercase name).drop 2).take 2 ++ ['/']
          ++ crate_file_name name vers) ∧
    download_location (chars "serde") (chars "1.0.0") =
      chars "/crates/se/rd/serde-1.0.0.crate" := by
  have hl : (lowercase name).length = name.length := List.length_map _ _
  refine ⟨rfl, rfl, fun h => ?_, fun h => ?_, fun h => ?_, fun h => ?_, by decide⟩
  · rw [download_location, crate_path]
    simp only [hl, h]
    simp [joinStr]
  · rw [download_location, crate_path]
    simp only [hl, h]
    simp [joinStr]
  · rw [download_location, crate_path]
    simp only [hl, h]
    simp [joinStr]
  · rw [download_location, crate_path]
    simp only [hl]
    rw [if_neg (by omega), if_neg (by omega), if_neg (by omega)]
    simp [joinStr]

/-- C7 witness: the general redirect shape applied to the concrete crate
`foo` version `0.1.0` (length-3 shard), matching the spec's scenario 1
(`/crates/3/f/foo-0.1.0.crate`). -/
theorem download_location_witness :
    (chars "foo").length = 3 ∧
    (download_redirect (chars "foo") (chars "0.1.0")).1 = 301 ∧
    download_location (chars "foo") (chars "0.1.0") =
      chars "/crates/" ++ chars "3" ++ ['/'] ++ (lowercase (chars "foo")).take 1
        ++ ['/'] ++ crate_file_name (chars "foo") (chars "0.1.0") :=
  ⟨by decide, (download_location_spec (chars "foo") (chars "0.1.0")).1,
    (download_location_spec (chars "foo") (chars "0.1.0")).2.2.2.2.1 (by decide)⟩

/-- Membership in a successful `collectOption` run comes from a
successful application of `f` to a member of the input. -/
theorem collectOption_mem {α β : Type} (f : α → Option β) :
    ∀ (l : List α) (l' : List β), collectOption f l = some l' →
      ∀ b ∈ l', ∃ a ∈ l, f a = some b := by
  intro l
  induction l with
  | nil => intro l' h b hb; simp [collectOption] at h; subst h; simp at hb
  | cons a as ih =>
    intro l' h b hb
    rw [collectOption] at h
    cases hfa : f a with
    | none => rw [hfa] at h; exact absurd h (by simp)
    | some b0 =>
      cases hrest : collectOption f as with
      | none => rw [hfa, hrest] at h; exact absurd h (by simp)
      | some bs =>
        rw [hfa, hrest] at h
        cases h
        rcases List.mem_cons.mp hb with hb | hb
        · exact ⟨a, List.mem_cons_self _ _, hb ▸ hfa⟩
        · obtain ⟨a', ha', hfa'⟩ := ih bs hrest b hb
          exact ⟨a', List.mem_cons_of_mem _ ha', hfa'⟩

/-- C3: every pair that `rustup_download_list` emits comes from a
non-`rustc-dev` package target that has download URLs, and its relative
path is the target's `xz_url` with the first three `/`-separated
segments removed (the rest of the URL preserved), paired with the
target's `xz_hash`. -/
theorem rustup_download_list_paths (c : Channel) (ps : Platforms)
    (date : Str) (pairs : List (Str × Str))
    (h : rustup_download_list c ps = some (date, pairs)) :
    date = c.date ∧
    ∀ rel hsh, (rel, hsh) ∈ pairs →
      ∃ pkgName pkg tname tgt urls,
        (pkgName, pkg) ∈ c.pkg ∧ pkgName ≠ chars "rustc-dev" ∧
        (tname, tgt) ∈ pkg.target ∧
        (ps.contains tname || tname == chars "*") = true ∧
        tgt.target_urls = some urls ∧
        hsh = urls.xz_hash ∧
        3 ≤ (splitOnStr urls.xz_url ['/']).length ∧
        rel = joinStr ['/'] ((splitOnStr urls.xz_url ['/']).drop 3) := by
  rw [rustup_download_list] at h
  rw [Option.map_eq_some'] at h
  obtain ⟨ls, hls, heq⟩ := h
  obtain ⟨hdate, hpairs⟩ := Prod.mk.injEq .. ▸ heq
  refine ⟨hdate.symm, ?_⟩
  intro rel hsh hmem
  rw [← hpairs] at hmem
  rw [List.mem_flatten] at hmem
  obtain ⟨sub, hsub, hmem⟩ := hmem
  obtain ⟨p, hp, hpairs'⟩ := collectOption_mem _ _ _ hls sub hsub
  rw [List.mem_filter] at hp
  obtain ⟨hpmem, hpname⟩ := hp
  rw [target_download_pairs] at hpairs'
  obtain ⟨urls, hurls, hres⟩ := collectOption_mem _ _ _ hpairs' (rel, hsh) hmem
  rw [List.mem_filterMap] at hurls
  obtain ⟨t, ht, hturls⟩ := hurls
  rw [List.mem_filter] at ht
  obtain ⟨htmem, htcond⟩ := ht
  rw [Option.map_eq_some'] at hres
  obtain ⟨r, hr, hpair⟩ := hres
  rw [xz_relative_path, Option.map_eq_some'] at hr
  obtain ⟨parts, hparts, hjoin⟩ := hr
  rw [sliceFrom] at hparts
  by_cases hlen : 3 ≤ (splitOnStr urls.xz_url ['/']).length
  · rw [if_pos hlen] at hparts
    cases hparts
    obtain ⟨hrel, hhsh⟩ := Prod.mk.injEq .. ▸ hpair
    refine ⟨p.1, p.2, t.1, t.2, urls, hpmem, ?_, htmem, htcond, hturls,
      hhsh.symm, hlen, ?_⟩
    · intro hcon
      rw [hcon] at hpname
      simp at hpname
    · rw [← hrel, ← hjoin]
  · rw [if_neg hlen] at hparts
    cases hparts

/-- C3 witness: on the concrete manifest, the single emitted pair indeed
comes from the `rust` package's linux target, with the relative path
`dist/2024-01-15/...tar.xz` obtained by dropping the first three
`/`-segments of the `xz_url`. -/
theorem rustup_download_list_witness :
    ∃ pkgName pkg tname tgt urls,
      (pkgName, pkg) ∈ channelW.pkg ∧ pkgName ≠ chars "rustc-dev" ∧
      (tname, tgt) ∈ pkg.target ∧
      (platformsW.contains tname || tname == chars "*") = true ∧
      tgt.target_urls = some urls ∧
      chars "bb" = urls.xz_hash ∧
      3 ≤ (splitOnStr urls.xz_url ['/']).length ∧
      chars "dist/2024-01-15/rust-1.75.0-x86_64-unknown-linux-gnu.tar.xz" =
        joinStr ['/'] ((splitOnStr urls.xz_url ['/']).drop 3) :=
  (rustup_download_list_paths channelW platformsW (chars "2024-01-15")
      [(chars "dist/2024-01-15/rust-1.75.0-x86_64-unknown-linux-gnu.tar.xz",
        chars "bb")]
      (by decide)).2
    (chars "dist/2024-01-15/rust-1.75.0-x86_64-unknown-linux-gnu.tar.xz")
    (chars "bb") (by decide)

/-- A successful `get_platforms_fold` run appends to each bucket exactly
the requested platforms that the corresponding upstream bucket contains
(windows checked first). -/
theorem get_platforms_fold_ok (all : Platforms) :
    ∀ (l : List Str) (acc res : Platforms),
      get_platforms_fold all acc l = .ok res →
      res.windows = acc.windows ++ l.filter (fun p => all.windows.contains p) ∧
      res.unix = acc.unix
        ++ l.filter (fun p => !all.windows.contains p && all.unix.contains p) := by
  intro l
  induction l with
  | nil =>
    intro acc res h
    rw [get_platforms_fold] at h
    cases h
    simp
  | cons p rest ih =>
    intro acc res h
    rw [get_platforms_fold] at h
    by_cases hw : all.windows.contains p = true
    · rw [if_pos hw] at h
      obtain ⟨h1, h2⟩ := ih _ _ h
      have hwm : p ∈ all.windows := List.elem_iff.mp hw
      refine ⟨?_, ?_⟩
      · rw [h1]; simp [List.filter_cons, hw, hwm]
      · rw [h2]; simp [List.filter_cons, hw, hwm]
    · rw [if_neg hw] at h
      rw [Bool.not_eq_true] at hw
      have hwm : p ∉ all.windows := by
        intro hm
        have hc : all.windows.contains p = true := List.elem_iff.mpr hm
        rw [hc] at hw
        cases hw
      by_cases hu : all.unix.contains p = true
      · rw [if_pos hu] at h
        obtain ⟨h1, h2⟩ := ih _ _ h
        have hum : p ∈ all.unix := List.elem_iff.mp hu
        refine ⟨?_, ?_⟩
        · rw [h1]; simp [List.filter_cons, hw, hwm]
        · rw [h2]; simp [List.filter_cons, hw, hu, hwm, hum]
      · rw [if_neg hu] at h
        exact (Except.noConfusion h)

/-- The fold of `get_platforms` fails exactly when some requested platform is in
neither upstream bucket. -/
theorem get_platforms_fold_err (all : Platforms) :
    ∀ (l : List Str) (acc : Platforms),
      (∃ e, get_platforms_fold all acc l = .error e) ↔
        ∃ p ∈ l, all.windows.contains p = false ∧
          all.unix.contains p = false := by
  intro l
  induction l with
  | nil =>
    intro acc
    rw [get_platforms_fold]
    simp
  | cons p rest ih =>
    intro acc
    rw [get_platforms_fold]
    by_cases hw : all.windows.contains p = true
    · rw [if_pos hw, ih]
      constructor
      · rintro ⟨q, hq, h1, h2⟩
        exact ⟨q, List.mem_cons_of_mem _ hq, h1, h2⟩
      · rintro ⟨q, hq, h1, h2⟩
        rcases List.mem_cons.mp hq with rfl | hq
        · rw [hw] at h1; cases h1
        · exact ⟨q, hq, h1, h2⟩
    · rw [if_neg hw]
      rw [Bool.not_eq_true] at hw
      by_cases hu : all.unix.contains p = true
      · rw [if_pos hu, ih]
        constructor
        · rintro ⟨q, hq, h1, h2⟩
          exact ⟨q, List.mem_cons_of_mem _ hq, h1, h2⟩
        · rintro ⟨q, hq, h1, h2⟩
          rcases List.mem_cons.mp hq with rfl | hq
          · rw [hu] at h2; cases h2
          · exact ⟨q, hq, h1, h2⟩
      · rw [if_neg hu]
        rw [Bool.not_eq_true] at hu
        constructor
        · intro _
          exact ⟨p, List.mem_cons_self _ _, hw, hu⟩
        · intro _
          exact ⟨_, rfl⟩

/-- C5 counterexample: the sorted set of triples occurring in the
manifest (excluding `*`) is `[aaa]`, yet the platform list derived by
`download_platform_list` is not that set: its windows bucket is always
the fixed five-triple list, even though none of those triples occurs in
the manifest. -/
theorem download_platform_list_counterexample :
    List.insertionSort (fun a b : Str => a ≤ b)
        (((channelCW.pkg.flatMap (fun p => p.2.target.map Prod.fst)).filter
          (fun t => t != chars "*")).dedup) = [chars "aaa"] ∧
    (download_platform_list channelCW).unix
        ++ (download_platform_list channelCW).windows ≠ [chars "aaa"] := by
  constructor
  · decide
  · decide

/-- C5 (amended): the windows bucket of the derived platform list is
always the fixed list `PLATFORMS_WINDOWS`; the unix bucket is the
sorted, duplicate-free list of triples occurring in the manifest,
excluding the synthetic `*` and the fixed windows triples.  When the
request list is empty the full upstream list is used; otherwise each
requested platform is classified into the windows bucket (checked
first) or the unix bucket of the upstream list, and resolution fails
exactly when some requested triple is in neither bucket. -/
theorem platforms_resolution_spec (c : Channel) (requested : List Str)
    (all res : Platforms) :
    (download_platform_list c).windows = PLATFORMS_WINDOWS ∧
    ((download_platform_list c).unix).Sorted (· ≤ ·) ∧
    ((download_platform_list c).unix).Nodup ∧
    (∀ x, x ∈ (download_platform_list c).unix ↔
      ((∃ pn pkg tgt, (pn, pkg) ∈ c.pkg ∧ (x, tgt) ∈ pkg.target) ∧
        x ≠ chars "*" ∧ x ∉ PLATFORMS_WINDOWS)) ∧
    (requested = [] → get_platforms requested all = .ok all) ∧
    (get_platforms requested all = .ok res → requested ≠ [] →
      res.windows = requested.filter (fun p => all.windows.contains p) ∧
      res.unix = requested.filter
        (fun p => !all.windows.contains p && all.unix.contains p)) ∧
    (requested ≠ [] →
      ((∃ e, get_platforms requested all = .error e) ↔
        ∃ p ∈ requested, all.windows.contains p = false ∧
          all.unix.contains p = false)) := by
  have hempty : requested ≠ [] → requested.isEmpty = false := by
    intro h
    cases requested with
    | nil => exact absurd rfl h
    | cons a l => rfl
  refine ⟨rfl, ?_, ?_, ?_, ?_, ?_, ?_⟩
  · exact List.Pairwise.sublist (List.filter_sublist _)
      (List.sorted_insertionSort _ _)
  · exact List.Nodup.filter _
      (((List.perm_insertionSort _ _).nodup_iff).mpr (List.nodup_dedup _))
  · intro x
    rw [download_platform_list]
    simp only [List.mem_filter, List.mem_insertionSort, List.mem_dedup,
      List.mem_flatMap, List.mem_map]
    constructor
    · rintro ⟨⟨⟨p, hp, t, ht, rfl⟩, hne⟩, hnw⟩
      refine ⟨⟨p.1, p.2, t.2, hp, ?_⟩, ?_, ?_⟩
      · exact ht
      · intro hcon
        rw [hcon] at hne
        simp at hne
      · intro hmem
        have hc : PLATFORMS_WINDOWS.contains t.1 = true := List.elem_iff.mpr hmem
        rw [hc] at hnw
        simp at hnw
    · rintro ⟨⟨pn, pkg, tgt, hp, ht⟩, hne, hnw⟩
      refine ⟨⟨⟨(pn, pkg), hp, (x, tgt), ht, rfl⟩, ?_⟩, ?_⟩
      · simp [bne, hne]
      · cases hcc : PLATFORMS_WINDOWS.contains x with
        | false => rfl
        | true => exact absurd (List.elem_iff.mp hcc) hnw
  · intro h
    subst h
    rfl
  · intro h hne
    rw [get_platforms, if_neg (by rw [hempty hne]; simp)] at h
    have := get_platforms_fold_ok all requested { unix := [], windows := [] } res h
    simpa using this
  · intro hne
    rw [get_platforms, if_neg (by rw [hempty hne]; simp)]
    exact get_platforms_fold_err all requested { unix := [], windows := [] }

/-- C5 witness: a two-element request against a concrete upstream list
classifies the windows triple into the windows bucket and the unix
triple into the unix bucket. -/
theorem platforms_resolution_witness :
    ({ unix := [chars "aarch64-apple-darwin"],
       windows := [chars "x86_64-pc-windows-msvc"] } : Platforms).windows =
      ([chars "x86_64-pc-windows-msvc", chars "aarch64-apple-darwin"]).filter
        (fun p => ({ unix := [chars "aarch64-apple-darwin",
                              chars "x86_64-unknown-linux-gnu"],
                     windows := PLATFORMS_WINDOWS } : Platforms).windows.contains p) ∧
    ({ unix := [chars "aarch64-apple-darwin"],
       windows := [chars "x86_64-pc-windows-msvc"] } : Platforms).unix =
      ([chars "x86_64-pc-windows-msvc", chars "aarch64-apple-darwin"]).filter
        (fun p => !({ unix := [chars "aarch64-apple-darwin",
                               chars "x86_64-unknown-linux-gnu"],
                      windows := PLATFORMS_WINDOWS } : Platforms).windows.contains p
          && ({ unix := [chars "aarch64-apple-darwin",
                         chars "x86_64-unknown-linux-gnu"],
                windows := PLATFORMS_WINDOWS } : Platforms).unix.contains p) :=
  (platforms_resolution_spec channelCW
      [chars "x86_64-pc-windows-msvc", chars "aarch64-apple-darwin"]
      { unix := [chars "aarch64-apple-darwin", chars "x86_64-unknown-linux-gnu"],
        windows := PLATFORMS_WINDOWS }
      { unix := [chars "aarch64-apple-darwin"],
        windows := [chars "x86_64-pc-windows-msvc"] }).2.2.2.2.2.1
    (by decide) (by decide)

/-- The counting loop counts exactly the non-`NotFound` failures. -/
theorem count_download_errors_eq (results : List (Except DownloadError Unit)) :
    count_download_errors results =
      results.countP (fun r => decide (r = .error .other)) := by
  have aux : ∀ (l : List (Except DownloadError Unit)) (n : Nat),
      l.foldl
        (fun acc r =>
          match r with
          | .ok _ => acc
          | .error .notFound => acc
          | .error .other => acc + 1)
        n = n + l.countP (fun r => decide (r = .error .other)) := by
    intro l
    induction l with
    | nil => intro n; simp
    | cons r rest ih =>
      intro n
      rw [List.foldl_cons, ih, List.countP_cons]
      cases r with
      | ok u => simp
      | error e =>
        cases e
        · simp
        · simp
          omega
  rw [count_download_errors, aux]
  simp

/-- Looking up the inserted date finds the new binding. -/
theorem lookup_insertVersion (versions : List (Str × List Str))
    (date : Str) (files : List Str) :
    List.lookup date (insertVersion versions date files) = some files := by
  rw [insertVersion]
  induction versions with
  | nil => simp [List.lookup]
  | cons kv rest ih =>
    rw [List.filter_cons]
    by_cases hk : (kv.1 != date) = true
    · rw [if_pos hk]
      rw [List.cons_append, List.lookup_cons]
      have : (date == kv.1) = false := by
        cases hd : date == kv.1
        · rfl
        · rw [beq_iff_eq] at hd
          rw [bne] at hk
          rw [Bool.not_eq_true'] at hk
          rw [hd] at hk
          simp at hk
      rw [this]
      exact ih
    · rw [if_neg hk]
      exact ih

/-- C4 counterexample: with zero download failures but a malformed
pre-existing `mirror-<channel>-history.toml`, `add_to_channel_history`
propagates the TOML parse error through the `?` at the end of the sync:
the sync neither succeeds nor writes a history file, so "the history
file is written if and only if no non-`NotFound` download failed" is
false of the program. -/
theorem sync_channel_finish_counterexample :
    count_download_errors [] = 0 ∧
    sync_channel_finish .parseError true (chars "2024-01-15") [] [] [] =
      (.error .toml, none) :=
  ⟨rfl, rfl⟩

/-- A successful history update binds the manifest date to the
downloaded relative paths followed by the extra retention files. -/
theorem add_to_channel_history_ok (read : HistoryReadResult)
    (writeOk : Bool) (date : Str) (files : List (Str × Str))
    (extras : List Str) (written : ChannelHistoryFile)
    (h : add_to_channel_history read writeOk date files extras = .ok written) :
    List.lookup date written.versions = some (files.map Prod.fst ++ extras) := by
  cases read with
  | parseError => simp [add_to_channel_history] at h
  | ioError =>
    cases writeOk with
    | false => simp [add_to_channel_history] at h
    | true =>
      simp [add_to_channel_history] at h
      rw [← h]
      exact lookup_insertVersion _ _ _
  | ok ch =>
    cases writeOk with
    | false => simp [add_to_channel_history] at h
    | true =>
      simp [add_to_channel_history] at h
      rw [← h]
      exact lookup_insertVersion _ _ _

/-- C4 (amended): for the downloads phase of a channel sync, `NotFound`
failures are ignored and every other failure is counted over the
complete result list (no sibling aborts another); the sync returns
`FailedDownloads` with that count exactly when at least one
non-`NotFound` download failed; when no such failure occurred the sync
runs `add_to_channel_history(..)?` — a malformed pre-existing history
file propagates its parse error and a failed write its IO error, with
no file written — and otherwise the history file, binding the manifest
date to the downloaded relative paths followed by the channel-manifest
retention paths on top of the surviving previous table, is written and
the sync succeeds; a written file always means no download failure
occurred, and it carries that binding. -/
theorem sync_channel_finish_spec (read : HistoryReadResult) (writeOk : Bool)
    (date : Str) (files : List (Str × Str)) (extras : List Str)
    (results : List (Except DownloadError Unit)) :
    count_download_errors results =
      results.countP (fun r => decide (r = .error .other)) ∧
    count_download_errors (results ++ [.error .notFound]) =
      count_download_errors results ∧
    ((sync_channel_finish read writeOk date files extras results).1 =
        .error (.failedDownloads (count_download_errors results)) ↔
      0 < count_download_errors results) ∧
    (count_download_errors results = 0 → read = .parseError →
      sync_channel_finish read writeOk date files extras results =
        (.error .toml, none)) ∧
    (count_download_errors results = 0 → read ≠ .parseError →
      writeOk = false →
      sync_channel_finish read writeOk date files extras results =
        (.error .io, none)) ∧
    (∀ ch, count_download_errors results = 0 → writeOk = true →
      read = .ok ch ∨ read = .ioError ∧ ch = { versions := [] } →
      sync_channel_finish read writeOk date files extras results =
        (.ok (),
         some ⟨insertVersion ch.versions date
           (files.map Prod.fst ++ extras)⟩)) ∧
    (∀ h, (sync_channel_finish read writeOk date files extras results).2 =
        some h →
      count_download_errors results = 0 ∧
      List.lookup date h.versions = some (files.map Prod.fst ++ extras)) := by
  refine ⟨count_download_errors_eq results, ?_, ?_, ?_, ?_, ?_, ?_⟩
  · rw [count_download_errors_eq, count_download_errors_eq, List.countP_append]
    simp
  · rw [sync_channel_finish]
    by_cases h : count_download_errors results = 0
    · rw [if_pos h]
      simp only [h]
      cases read with
      | parseError => simp [add_to_channel_history]
      | ioError => cases writeOk <;> simp [add_to_channel_history]
      | ok ch => cases writeOk <;> simp [add_to_channel_history]
    · rw [if_neg h]
      simp
      omega
  · intro h0 hre
    rw [sync_channel_finish, if_pos h0, hre]
    simp [add_to_channel_history]
  · intro h0 hne hw
    rw [sync_channel_finish, if_pos h0, hw]
    cases read with
    | parseError => exact absurd rfl hne
    | ioError => simp [add_to_channel_history]
    | ok ch => simp [add_to_channel_history]
  · intro ch h0 hw hcase
    rw [sync_channel_finish, if_pos h0, hw]
    rcases hcase with rfl | ⟨rfl, rfl⟩
    · simp [add_to_channel_history]
    · simp [add_to_channel_history]
  · intro h hsome
    rw [sync_channel_finish] at hsome
    by_cases h0 : count_download_errors results = 0
    · rw [if_pos h0] at hsome
      cases hadd : add_to_channel_history read writeOk date files extras with
      | error e =>
        rw [hadd] at hsome
        simp at hsome
      | ok written =>
        rw [hadd] at hsome
        simp at hsome
        subst hsome
        exact ⟨h0, add_to_channel_history_ok _ _ _ _ _ _ hadd⟩
    · rw [if_neg h0] at hsome
      simp at hsome

/-- C4 witness: with a well-formed pre-existing history file, a
successful write, one successful download and one `NotFound` result
(ignored), the sync succeeds and writes the history file with the new
date binding added on top of the surviving table. -/
theorem sync_channel_finish_witness :
    sync_channel_finish
      (.ok { versions := [(chars "2024-01-14", [chars "old.tar.xz"])] })
      true (chars "2024-01-15")
      [(chars "dist/2024-01-15/a.tar.xz", chars "hash")]
      [chars "dist/2024-01-15/channel-rust-nightly.toml"]
      [.ok (), .error .notFound] =
      (.ok (),
       some ⟨insertVersion
         [(chars "2024-01-14", [chars "old.tar.xz"])] (chars "2024-01-15")
         ([(chars "dist/2024-01-15/a.tar.xz", chars "hash")].map Prod.fst
           ++ [chars "dist/2024-01-15/channel-rust-nightly.toml"])⟩) :=
  (sync_channel_finish_spec
      (.ok { versions := [(chars "2024-01-14", [chars "old.tar.xz"])] })
      true (chars "2024-01-15")
      [(chars "dist/2024-01-15/a.tar.xz", chars "hash")]
      [chars "dist/2024-01-15/channel-rust-nightly.toml"]
      [.ok (), .error .notFound]).2.2.2.2.2.1
    { versions := [(chars "2024-01-14", [chars "old.tar.xz"])] }
    (by decide) rfl (Or.inl rfl)

/-- The pinned-version loop succeeds exactly when no pinned channel sync
failed with `Download(NotFound)`. -/
theorem pinned_versions_loop_ok (chR : Str → Except SyncError Unit) :
    ∀ l : List Str,
      (pinned_versions_loop chR l = .ok () ↔
        ∀ v ∈ l, chR v ≠ .error (.download .notFound)) := by
  intro l
  induction l with
  | nil => simp [pinned_versions_loop]
  | cons v rest ih =>
    rw [pinned_versions_loop]
    cases hcv : chR v with
    | ok u => simp [hcv, List.forall_mem_cons, ih]
    | error e =>
      cases e with
      | io => simp [hcv, List.forall_mem_cons, ih]
      | toml => simp [hcv, List.forall_mem_cons, ih]
      | failedDownloads n => simp [hcv, List.forall_mem_cons, ih]
      | download de =>
        cases de with
        | notFound => simp [hcv, List.forall_mem_cons]
        | other => simp [hcv, List.forall_mem_cons, ih]

/-- C10 counterexample: when platform resolution itself fails to
download the upstream platform list, `pack` returns an error even
though no pinned version's channel manifest was `NotFound`; so the
pinned-manifest `NotFound` is not the only download failure that makes
`pack` fail. -/
theorem pack_counterexample :
    (∃ e, pack (.error (chars "download platform list failed")) (.ok ())
        (fun _ => .ok ()) (.ok ()) (.ok ()) [chars "1.67.1"] = .error e) ∧
    ¬∃ v ∈ [chars "1.67.1"],
        (fun _ : Str => (.ok () : Except SyncError Unit)) v =
          .error (.download .notFound) := by
  constructor
  · exact ⟨_, rfl⟩
  · rintro ⟨v, hv, h⟩
    cases h

/-- C10 (amended): `pack` propagates a platform-resolution failure;
once platforms resolve, it returns success (and emits the tar archive)
exactly when no explicitly pinned version's channel sync failed with
`Download(NotFound)` — in particular `FailedDownloads` failures of
rustup-init mirroring or of any channel sync are only logged; with no
pinned versions `pack` always succeeds once platforms resolve. -/
theorem pack_spec (gp : Except Str Platforms) (initR : Except SyncError Unit)
    (chR : Str → Except SyncError Unit)
    (stableR nightlyR : Except SyncError Unit) (versions : List Str) :
    (∀ e, gp = .error e →
      pack gp initR chR stableR nightlyR versions = .error e) ∧
    (∀ p, gp = .ok p →
      (pack gp initR chR stableR nightlyR versions = .ok true ↔
        ∀ v ∈ versions, chR v ≠ .error (.download .notFound))) ∧
    pack gp initR chR stableR nightlyR versions =
      pack gp (.error (.failedDownloads 1)) chR stableR nightlyR versions ∧
    (∀ p, gp = .ok p → versions = [] →
      pack gp initR chR stableR nightlyR versions = .ok true) := by
  refine ⟨?_, ?_, rfl, ?_⟩
  · intro e h
    subst h
    cases hve : versions.isEmpty
    · simp [pack, hve, download_pinned_rust_version]
    · simp [pack, hve, download_latest]
  · intro p h
    subst h
    cases hve : versions.isEmpty
    · rw [pack, hve]
      simp only [Bool.false_eq_true, if_false]
      rw [download_pinned_rust_version]
      cases hl : pinned_versions_loop chR versions with
      | ok u =>
        have hall := (pinned_versions_loop_ok chR versions).mp (by rw [hl])
        simp only [hl]
        simpa using hall
      | error e =>
        have : ¬∀ v ∈ versions, chR v ≠ .error (.download .notFound) := by
          intro hall
          rw [(pinned_versions_loop_ok chR versions).mpr hall] at hl
          cases hl
        simp [this]
    · have : versions = [] := List.isEmpty_iff.mp hve
      subst this
      simp [pack, download_latest]
  · intro p h hv
    subst h
    subst hv
    simp [pack, download_latest]

/-- C10 witness: with platforms resolved, rustup-init mirroring failing
with `FailedDownloads` and the pinned channel sync failing with
`FailedDownloads` (but not `NotFound`), `pack` still succeeds and emits
the archive. -/
theorem pack_witness :
    pack (.ok { unix := [], windows := [] }) (.error (.failedDownloads 3))
      (fun _ => .error (.failedDownloads 2)) (.ok ()) (.ok ())
      [chars "1.67.1"] = .ok true :=
  ((pack_spec (.ok { unix := [], windows := [] }) (.error (.failedDownloads 3))
      (fun _ => .error (.failedDownloads 2)) (.ok ()) (.ok ())
      [chars "1.67.1"]).2.1 { unix := [], windows := [] } rfl).mpr
    (by decide)

/-- C9 counterexample: a child header block containing `Status: OK`
(a two-byte status value) makes the response construction panic — the
byte slice `[..3]` is out of bounds — so building the response is not
total over child outputs. -/
theorem build_git_response_counterexample :
    collect_headers [chars "Status: OK"] = [(chars "Status", chars "OK")] ∧
    build_git_response (collect_headers [chars "Status: OK"]) = none := by
  constructor
  · decide
  · decide

/-- Folding the response builder succeeds exactly when every `Status`
header in the remaining list carries at least three bytes. -/
theorem build_git_response_fold_total :
    ∀ (hs : List (Str × Str)) (acc : GitResponse),
      (build_git_response_fold acc hs).isSome ↔
        ∀ kv ∈ hs, kv.1 = chars "Status" → 3 ≤ (utf8Bytes kv.2).length := by
  intro hs
  induction hs with
  | nil => intro acc; simp [build_git_response_fold]
  | cons kv rest ih =>
    intro acc
    obtain ⟨k, v⟩ := kv
    rw [build_git_response_fold]
    by_cases hk : (k == chars "Status") = true
    · have hkeq : k = chars "Status" := by rwa [beq_iff_eq] at hk
      rw [if_pos hk, slice_first3]
      by_cases hlen : 3 ≤ (utf8Bytes v).length
      · rw [if_pos hlen]
        simp [List.forall_mem_cons, hkeq, hlen, ih]
      · rw [if_neg hlen]
        simp [List.forall_mem_cons, hkeq, hlen]
    · have hkne : ¬(k = chars "Status") := by
        intro hc
        rw [hc] at hk
        simp at hk
      rw [if_neg hk]
      simp [List.forall_mem_cons, hkne, ih]

/-- C9 (amended): the git CGI bridge's response construction is total
exactly over header blocks in which every `Status` header value carries
at least three bytes of UTF-8; taking the status code's three bytes is
in bounds precisely then, and a shorter value — such as `Status: OK` —
makes the slice panic. -/
theorem build_git_response_spec (hs : List (Str × Str)) (val : Str) :
    ((build_git_response hs).isSome ↔
      ∀ kv ∈ hs, kv.1 = chars "Status" → 3 ≤ (utf8Bytes kv.2).length) ∧
    (slice_first3 (utf8Bytes val) = none ↔ (utf8Bytes val).length < 3) := by
  refine ⟨build_git_response_fold_total hs _, ?_⟩
  rw [slice_first3]
  by_cases h : 3 ≤ (utf8Bytes val).length
  · rw [if_pos h]
    simp
    omega
  · rw [if_neg h]
    simp
    omega

/-- C6 counterexample: the history file `mirror-xnightly-history.toml`
has the shape `mirror-<channel>-history.toml` with channel `xnightly`,
but because its name contains `nightly` the code treats it as a nightly
file and fails on `strip_prefix("mirror-nightly-")` instead of yielding
the key `xnightly`. -/
theorem available_versions_counterexample :
    stripPre (chars "mirror-xnightly-history.toml") (chars "mirror-") =
      some (chars "xnightly-history.toml") ∧
    stripSuf (chars "xnightly-history.toml") (chars "-history.toml") =
      some (chars "xnightly") ∧
    available_versions
        [(chars "mirror-xnightly-history.toml", { versions := some [] })] =
      .error (chars "strip_prefix NoneError") := by
  refine ⟨by decide, by decide, by decide⟩

/-- Membership in a successful `collectExcept` run comes from a
successful application of `f` to a member of the input. -/
theorem collectExcept_mem {ε α β : Type} (f : α → Except ε β) :
    ∀ (l : List α) (l' : List β), collectExcept f l = .ok l' →
      ∀ b ∈ l', ∃ a ∈ l, f a = .ok b := by
  intro l
  induction l with
  | nil =>
    intro l' h b hb
    rw [collectExcept] at h
    cases h
    simp at hb
  | cons a as ih =>
    intro l' h b hb
    rw [collectExcept] at h
    cases hfa : f a with
    | error e => rw [hfa] at h; exact absurd h (by simp)
    | ok b0 =>
      rw [hfa] at h
      cases hrest : collectExcept f as with
      | error e => rw [hrest] at h; exact absurd h (by simp)
      | ok bs =>
        rw [hrest] at h
        cases h
        rcases List.mem_cons.mp hb with hb | hb
        · exact ⟨a, List.mem_cons_self _ _, hb ▸ hfa⟩
        · obtain ⟨a', ha', hfa'⟩ := ih bs hrest b hb
          exact ⟨a', List.mem_cons_of_mem _ ha', hfa'⟩

/-- C6 (amended): a history file whose name contains `nightly` yields
the channel id `nightly-<date>` where the date comes from stripping the
`mirror-nightly-` prefix and `-history.toml` suffix (any other shape of
a nightly-containing name is an error, so a channel such as `xnightly`
cannot be served); a file whose name does not contain `nightly` and has
the shape `mirror-<channel>-history.toml` yields `<channel>`; a
channel's platforms are exactly the string values of the `versions`
table that contain `cargo-<base>-` (base `nightly` for nightly files,
else `<channel>`), taken after the first occurrence of that prefix and
stripped of a trailing `tar.xz`; and every entry of the versions map
comes from one of the history files this way. -/
theorem available_versions_spec (name : Str) (conf : HistoryTable)
    (ch : Str) :
    (∀ s c ps, containsSub name (chars "nightly") = false →
      stripPre name (chars "mirror-") = some s →
      stripSuf s (chars "-history.toml") = some c →
      extract_available_platforms_for_channel conf c = some ps →
      version_entry_for_file name conf = .ok (c, ps)) ∧
    (∀ s d ps, containsSub name (chars "nightly") = true →
      stripPre name (chars "mirror-nightly-") = some s →
      stripSuf s (chars "-history.toml") = some d →
      extract_available_platforms_for_channel conf (chars "nightly") = some ps →
      version_entry_for_file name conf = .ok (chars "nightly-" ++ d, ps)) ∧
    (∀ table ps p, conf.versions = some table →
      extract_available_platforms_for_channel conf ch = some ps →
      (p ∈ ps ↔ ∃ key arr s tl, (key, arr) ∈ table ∧ some s ∈ arr.getD [] ∧
        afterFirst s (chars "cargo-" ++ ch ++ ['-']) = some tl ∧
        stripSuf tl (chars "tar.xz") = some p)) ∧
    (∀ (files : List (Str × HistoryTable)) out,
      available_versions files = .ok out →
      ∀ kv ∈ out, ∃ f ∈ files, version_entry_for_file f.1 f.2 = .ok kv) := by
  refine ⟨?_, ?_, ?_, ?_⟩
  · intro s c ps hnight hpre hsuf hext
    rw [version_entry_for_file]
    simp only [hnight, Bool.false_eq_true, if_false, hpre, hsuf, hext]
  · intro s d ps hnight hpre hsuf hext
    rw [version_entry_for_file]
    simp only [hnight, if_true, hext, hpre, hsuf]
  · intro table ps p hv hext
    rw [extract_available_platforms_for_channel, hv] at hext
    cases hext
    rw [List.mem_filterMap]
    constructor
    · rintro ⟨x, hx, hfx⟩
      rw [List.mem_flatMap] at hx
      obtain ⟨kv, hkv, hxin⟩ := hx
      cases x with
      | none => exact absurd hfx (by simp)
      | some s =>
        cases ha : afterFirst s (chars "cargo-" ++ ch ++ ['-']) with
        | none =>
          simp only [ha] at hfx
          exact absurd hfx (by simp)
        | some tl =>
          simp only [ha] at hfx
          exact ⟨kv.1, kv.2, s, tl, hkv, hxin, ha, hfx⟩
    · rintro ⟨key, arr, s, tl, hkv, hs, ha, hstrip⟩
      refine ⟨some s, ?_, ?_⟩
      · rw [List.mem_flatMap]
        exact ⟨(key, arr), hkv, hs⟩
      · simp only [ha]
        exact hstrip
  · intro files out h kv hkv
    exact collectExcept_mem _ files out h kv hkv

/-- C6 witness: the nightly history file
`mirror-nightly-2024-01-15-history.toml`, whose versions table holds the
value `dist/2024-01-15/cargo-nightly-x86_64-unknown-linux-gnu.tar.xz`,
yields channel id `nightly-2024-01-15` with the platform segment
`x86_64-unknown-linux-gnu.` (the literal `tar.xz` suffix stripped). -/
theorem available_versions_witness :
    version_entry_for_file (chars "mirror-nightly-2024-01-15-history.toml")
      { versions := some [(chars "2024-01-15",
          some [some (chars "dist/2024-01-15/cargo-nightly-x86_64-unknown-linux-gnu.tar.xz")])] } =
      .ok (chars "nightly-" ++ chars "2024-01-15",
           [chars "x86_64-unknown-linux-gnu."]) :=
  (available_versions_spec (chars "mirror-nightly-2024-01-15-history.toml")
      { versions := some [(chars "2024-01-15",
          some [some (chars "dist/2024-01-15/cargo-nightly-x86_64-unknown-linux-gnu.tar.xz")])] }
      (chars "nightly")).2.1
    (chars "2024-01-15-history.toml") (chars "2024-01-15")
    [chars "x86_64-unknown-linux-gnu."]
    (by decide) (by decide) (by decide) (by decide)

/-- Splitting a newline-free, non-empty string inclusively yields the
string itself as the single piece. -/
theorem splitInclusiveNl_no_newline :
    ∀ x : Str, '\n' ∉ x → x ≠ [] → splitInclusiveNl x = [x]
  | [], _, h => absurd rfl h
  | c :: rest, hmem, _ => by
    have hc : ¬(c = '\n') := fun h => hmem (h ▸ List.mem_cons_self _ _)
    rw [splitInclusiveNl, if_neg hc]
    cases rest with
    | nil => rfl
    | cons d t =>
      rw [splitInclusiveNl_no_newline (d :: t)
        (fun h => hmem (List.mem_cons_of_mem _ h)) (by simp)]

/-- Splitting inclusively after a newline-free prefix followed by a
newline splits off exactly that prefix (with its newline). -/
theorem splitInclusiveNl_append :
    ∀ (x t : Str), '\n' ∉ x →
      splitInclusiveNl (x ++ '\n' :: t) = (x ++ ['\n']) :: splitInclusiveNl t := by
  intro x
  induction x with
  | nil => intro t _; simp [splitInclusiveNl]
  | cons c rest ih =>
    intro t hmem
    have hc : ¬(c = '\n') := fun h => hmem (h ▸ List.mem_cons_self _ _)
    rw [List.cons_append, splitInclusiveNl, if_neg hc,
      ih t (fun h => hmem (List.mem_cons_of_mem _ h))]
    rfl

/-- Stripping a suffix that is not there fails. -/
theorem stripSuf_of_not_suffix (s p : Str) (h : ¬ p <:+ s) :
    stripSuf s p = none := by
  rw [stripSuf, if_neg]
  intro hc
  exact h (List.isSuffixOf_iff_suffix.mp hc)

/-- Stripping a suffix that is there removes exactly it. -/
theorem stripSuf_concat (x p : Str) : stripSuf (x ++ p) p = some x := by
  rw [stripSuf, if_pos (List.isSuffixOf_iff_suffix.mpr ⟨x, rfl⟩)]
  have hlen : (x ++ p).length - p.length = x.length := by simp
  rw [hlen, List.take_left]

/-- A newline-free piece whose last character is not a carriage return
is left unchanged by the line cleanup. -/
theorem lineStrip_clean (x : Str) (hnl : '\n' ∉ x)
    (hcr : x.getLast? ≠ some '\r') : lineStrip x = x := by
  rw [lineStrip]
  have hsuf : stripSuf x ['\n'] = none := by
    apply stripSuf_of_not_suffix
    rintro ⟨t, rfl⟩
    exact hnl (by simp)
  rw [hsuf]

/-- A piece of the form `x ++ "\n"` with `x` newline-free and not
ending in a carriage return is cleaned up to `x`. -/
theorem lineStrip_newline (x : Str) (hnl : '\n' ∉ x)
    (hcr : x.getLast? ≠ some '\r') : lineStrip (x ++ ['\n']) = x := by
  rw [lineStrip, stripSuf_concat]
  have hsuf2 : stripSuf x ['\r'] = none := by
    apply stripSuf_of_not_suffix
    rintro ⟨t, rfl⟩
    exact hcr (List.getLast?_concat _)
  simp only [hsuf2]

/-- Rust `lines` is a left inverse of joining with `"\n"`, for parts
that are non-empty, newline-free and do not end in a carriage return. -/
theorem rustLines_joinStr :
    ∀ parts : List Str,
      (∀ x ∈ parts, x ≠ [] ∧ '\n' ∉ x ∧ x.getLast? ≠ some '\r') →
      rustLines (joinStr ['\n'] parts) = parts := by
  intro parts
  induction parts with
  | nil => intro _; rfl
  | cons x rest ih =>
    intro hall
    obtain ⟨hne, hnl, hcr⟩ := hall x (List.mem_cons_self _ _)
    cases rest with
    | nil =>
      rw [joinStr, rustLines, splitInclusiveNl_no_newline x hnl hne]
      rw [List.map_singleton, lineStrip_clean x hnl hcr]
    | cons y t =>
      have hjoin : joinStr ['\n'] (x :: y :: t) =
          x ++ '\n' :: joinStr ['\n'] (y :: t) := by
        rw [joinStr]
        · simp
        · simp
      rw [hjoin, rustLines, splitInclusiveNl_append _ _ hnl, List.map_cons,
        lineStrip_newline x hnl hcr]
      have := ih (fun z hz => hall z (List.mem_cons_of_mem _ hz))
      rw [rustLines] at this
      rw [this]

/-- A collection run fails exactly when some item fails. -/
theorem collectOption_eq_none {α β : Type} (f : α → Option β) :
    ∀ l : List α, collectOption f l = none ↔ ∃ a ∈ l, f a = none := by
  intro l
  induction l with
  | nil => simp [collectOption]
  | cons a as ih =>
    constructor
    · intro h
      rw [collectOption] at h
      cases hfa : f a with
      | none => exact ⟨a, List.mem_cons_self _ _, hfa⟩
      | some b =>
        rw [hfa] at h
        cases hrest : collectOption f as with
        | none =>
          obtain ⟨a', ha', hfa'⟩ := ih.mp hrest
          exact ⟨a', List.mem_cons_of_mem _ ha', hfa'⟩
        | some bs =>
          rw [hrest] at h
          exact absurd h (by simp)
    · rintro ⟨a', ha', hfa'⟩
      rw [collectOption]
      rcases List.mem_cons.mp ha' with rfl | ha'
      · rw [hfa']
      · rw [ih.mpr ⟨a', ha', hfa'⟩]
        cases f a <;> rfl

/-- Collecting the parses of printed records recovers the records. -/
theorem collectOption_roundtrip {α : Type} (parse : Str → Option α)
    (print : α → Str) (hround : ∀ a, parse (print a) = some a) :
    ∀ l : List α, collectOption parse (l.map print) = some l := by
  intro l
  induction l with
  | nil => rfl
  | cons a as ih => rw [List.map_cons, collectOption, hround, ih]

/-- C8: decoding a per-crate entry file fails exactly when some line
fails the line parser; encoding an entry set (its iteration sequence)
and decoding the result yields an equal set; and inserting a record
equal to one already present leaves the set unchanged (invariant I1).
The serde_json line codec is abstracted by `parse`/`print` with its
documented properties: a round trip succeeds and a printed record is a
single non-empty line. -/
theorem entries_codec_spec {α : Type} [DecidableEq α]
    (parse : Str → Option α) (print : α → Str)
    (hround : ∀ a, parse (print a) = some a)
    (hline : ∀ a, print a ≠ [] ∧ '\n' ∉ print a ∧
      (print a).getLast? ≠ some '\r') :
    (∀ s, entries_from_string parse s = none ↔
      ∃ l ∈ rustLines s, parse l = none) ∧
    (∀ l : List α, entries_from_string parse (entries_to_string print l) =
      some l.toFinset) ∧
    (∀ (e : α) (s : Finset α), e ∈ s → entries_insert e s = s) := by
  refine ⟨?_, ?_, ?_⟩
  · intro s
    rw [entries_from_string, Option.map_eq_none']
    exact collectOption_eq_none parse (rustLines s)
  · intro l
    rw [entries_from_string, entries_to_string,
      rustLines_joinStr (l.map print) (List.forall_mem_map.mpr (fun a _ => hline a)),
      collectOption_roundtrip parse print hround]
    rfl
  · intro e s he
    exact Finset.insert_eq_self.mpr he

/-- C8 witness: the codec instantiated with a concrete line codec on
booleans; encoding the iteration sequence `[true, false]` and decoding
the result yields the same two-element set. -/
theorem entries_codec_witness :
    entries_from_string boolParse (entries_to_string boolPrint [true, false]) =
      some ([true, false] : List Bool).toFinset :=
  (entries_codec_spec boolParse boolPrint (by decide) (by decide)).2.1
    [true, false]

end CratesRegistry


